import Mathlib

/-!
Verification of the meeting-transcript ingestion pipeline
(`src/main.py`, `src/drive_api.py`, `src/gemini_api.py`, `src/chat_api.py`).

Python strings are embedded as `List Char` (a Python `str` is a sequence of
code points, `len` is `List.length`).  `content.split('\n')` is `splitLines`,
`'\n'.join(...)` is `joinLines`.  The remote Gemini backend, the Drive
service and the chat webhook are external collaborators; they are modelled
as oracles supplied to each operation, and each operation additionally
returns the observable interaction (prompts issued, events performed) so
that ordering and call-count properties can be stated.
-/

namespace MeetingIntern

/-- A Python string: a sequence of characters. -/
abbrev Str := List Char

/-- Python `content.split('\n')` (`str.split` with an explicit separator:
the result is never empty, and `''.split('\n') = ['']`). -/
def splitLines : Str → List Str
  | [] => [[]]
  | c :: rest =>
    if c = '\n' then [] :: splitLines rest
    else
      match splitLines rest with
      | [] => [[c]]
      | l :: ls => (c :: l) :: ls

/-- Python `'\n'.join(chunks)`. -/
def joinLines : List Str → Str
  | [] => []
  | [x] => x
  | x :: y :: xs => x ++ '\n' :: joinLines (y :: xs)

/-- The cumulative `current_size` of a pending chunk: each line counts for
`len(line) + 1` (`gemini_api.py` line 68). -/
def sizeSum (cur : List Str) : Nat := (cur.map (fun l => l.length + 1)).sum

/-- The constant `self.MAX_CHUNK_SIZE` (`gemini_api.py` line 19). -/
def MAX_CHUNK_SIZE : Nat := 30000

/-- The loop of `GeminiAPI._chunk_content` (`gemini_api.py` lines 63-80):
fold over the lines, flushing the pending chunk whenever the next line
would overflow `maxChunkSize`, and flush the pending chunk at the end. -/
def chunkAux (maxChunkSize : Nat) : List Str → List Str → Nat → List Str
  | [], currentChunk, _ =>
    if currentChunk = [] then [] else [joinLines currentChunk]
  | line :: rest, currentChunk, currentSize =>
    let lineSize := line.length + 1
    if currentSize + lineSize > maxChunkSize then
      (if currentChunk = [] then [] else [joinLines currentChunk]) ++
        chunkAux maxChunkSize rest [line] lineSize
    else
      chunkAux maxChunkSize rest (currentChunk ++ [line]) (currentSize + lineSize)

/-- The method `GeminiAPI._chunk_content` (`gemini_api.py` lines 58-81), with
`self.MAX_CHUNK_SIZE` passed explicitly. -/
def chunk_content (maxChunkSize : Nat) (content : Str) : List Str :=
  if content.length ≤ maxChunkSize then [content]
  else chunkAux maxChunkSize (splitLines content) [] 0

/-- Python `str.strip()` whitespace (the ASCII whitespace characters). -/
def isSpace (c : Char) : Bool :=
  c = ' ' ∨ c = '\t' ∨ c = '\n' ∨ c = '\r' ∨ c = '\x0b' ∨ c = '\x0c'

/-- Python `s.strip()`. -/
def pyStrip (s : Str) : Str :=
  ((s.dropWhile isSpace).reverse.dropWhile isSpace).reverse

/-- The method `GeminiAPI._check_rate_limit` (`gemini_api.py` lines 41-56).  The state
is `(self.requests_in_minute, self.last_request_time)`; `current_time` is
the value of `time.time()` on entry (time is modelled as an exact rational
number of seconds).  Returns the new state and the seconds slept (`0` when
the call is admitted without blocking); after a sleep of `s` seconds,
`time.time()` is modelled as `current_time + s`. -/
def check_rate_limit (requests_in_minute : Nat) (last_request_time : ℚ)
    (current_time : ℚ) : Nat × ℚ × ℚ :=
  let reset := current_time - last_request_time ≥ 60
  let c1 : Nat := if reset then 0 else requests_in_minute
  let l1 : ℚ := if reset then current_time else last_request_time
  if c1 ≥ 55 then
    let sleep_time := 60 - (current_time - l1)
    if sleep_time > 0 then
      (0 + 1, current_time + sleep_time, sleep_time)
    else
      (c1 + 1, l1, 0)
  else
    (c1 + 1, l1, 0)

/-! ### The retry wrapper (`@retry(stop=stop_after_attempt(3),
wait=wait_exponential(multiplier=1, min=4, max=10))`, `gemini_api.py`
lines 83-130).

One attempt of the body of `_generate_with_retry` is summarized by its
observable outcome: the HTTP response succeeded with generated candidates,
the POST raised / `raise_for_status` fired, the status was 429 (which first
sleeps a fixed 5 seconds and then raises), or the response had no
candidates (`raise Exception("Empty response from Gemini API")` — a
failure, not an empty string). -/

inductive GenOutcome where
  | success (text : Str)
  | httpError
  | http429
  | noCandidates
deriving DecidableEq

/-- Whether the attempt raised (every outcome except `success`). -/
def GenOutcome.isFail : GenOutcome → Bool
  | .success _ => false
  | _ => true

/-- The wait `wait_exponential(multiplier=1, min=4, max=10)` evaluated after the
given (1-based) attempt number: `clamp(multiplier * 2 ** n, min, max)`. -/
def backoffWait (attemptNumber : Nat) : Nat :=
  max 4 (min (2 ^ attemptNumber) 10)

/-- One execution of the body of `_generate_with_retry`: the result
(`Except` error = the body raised) and the sleeps the body itself performs
(the fixed `time.sleep(5)` on HTTP 429, `gemini_api.py` line 117).
On success the body returns the candidate text `.strip()`ped. -/
def genAttempt : GenOutcome → Except Unit Str × List Nat
  | .success t => (.ok (pyStrip t), [])
  | .httpError => (.error (), [])
  | .http429 => (.error (), [5])
  | .noCandidates => (.error (), [])

/-- The tenacity retry loop: run the body; on failure, if retries remain,
sleep the exponential-backoff wait and try again, otherwise surface the
failure.  Returns (result, number of attempts made, all sleeps in order).
The first argument counts the retries still allowed, `attemptNumber` is
the 1-based number of the current attempt. -/
def retryLoop (outcomes : Nat → GenOutcome) :
    Nat → Nat → Except Unit Str × Nat × List Nat
  | 0, attemptNumber =>
    match genAttempt (outcomes attemptNumber) with
    | (.ok t, s) => (.ok t, attemptNumber, s)
    | (.error _, s) => (.error (), attemptNumber, s)
  | remaining + 1, attemptNumber =>
    match genAttempt (outcomes attemptNumber) with
    | (.ok t, s) => (.ok t, attemptNumber, s)
    | (.error _, s) =>
      let rest := retryLoop outcomes remaining (attemptNumber + 1)
      (rest.1, rest.2.1, s ++ backoffWait attemptNumber :: rest.2.2)

/-- The method `_generate_with_retry` under `stop_after_attempt(3)`: at most three
attempts (attempt 1 plus up to 2 retries). -/
def generate_with_retry (outcomes : Nat → GenOutcome) :
    Except Unit Str × Nat × List Nat :=
  retryLoop outcomes 2 1

/-- The prompt-truncation step at the top of `_generate_with_retry`
(`gemini_api.py` lines 88-92): the prompt is chunked, and when it splits
into more than one chunk only `chunks[0]` is kept as the prompt actually
sent to the backend; no error is reported. -/
def sent_prompt (prompt : Str) : Str :=
  let chunks := chunk_content MAX_CHUNK_SIZE prompt
  if chunks.length > 1 then chunks.headI else prompt

/-! ### Gemini operations (`gemini_api.py` lines 132-281).

Each public operation issues one or more `_generate_with_retry` calls.
The calls are represented by the structured prompt they send (the fixed
English instruction text of each template is abstracted into the
constructor; the data flowing into the prompt — chunk, indices, summaries,
document name — is kept).  The backend is an oracle
`gen : GPrompt → Except Unit Str`: `ok` is the text `_generate_with_retry`
returned, `error` means it raised (after its retries were exhausted). -/

inductive GPrompt where
  | classifyP (document_name : Option Str) (excerpt : Str)
  | summarizeSingle (chunk : Str)
  | summarizePart (partNumber total : Nat) (chunk : Str)
  | mergeSummaries (parts : List Str)
  | chatSummaryP (meeting_time : Option Str) (transcript : Str)
  | validationSummaryP (meeting_time : Option Str) (transcript : Str)
deriving DecidableEq

/-- The closed label set of `determine_meeting_type`
(`gemini_api.py` lines 160-164). -/
def valid_categories : List Str :=
  ["Daily Team Meeting".data, "Investor Meeting".data, "Client Meeting".data,
   "HR & Recruitment".data, "User Research Meeting".data,
   "Product Development Meeting".data, "Other".data]

/-- The method `GeminiAPI.determine_meeting_type` (`gemini_api.py` lines 132-170):
classify using only the first chunk of the transcript; keep the result only
if it is one of the `valid_categories`, otherwise return `"Other"`; any
exception (including `_generate_with_retry` exhausting its retries) is
caught and degrades to `"Other"`. -/
def determine_meeting_type (gen : GPrompt → Except Unit Str)
    (transcript_text : Str) (document_name : Option Str) : Str :=
  let content_chunk := (chunk_content MAX_CHUNK_SIZE transcript_text).headI
  match gen (.classifyP document_name content_chunk) with
  | .ok result => if result ∈ valid_categories then result else "Other".data
  | .error _ => "Other".data

/-- The chunk loop of `summarize_transcript` (`gemini_api.py` lines
190-201): summarize part `i+1/n` of each chunk; falsy (empty) summaries
are not appended; an exception aborts the whole operation.  Returns the
collected summaries (or the raised error) together with the prompts
issued, in order. -/
def summarizeChunks (gen : GPrompt → Except Unit Str) (total : Nat) :
    List Str → Nat → List Str → Except Unit (List Str) × List GPrompt
  | [], _, acc => (.ok acc, [])
  | chunk :: rest, i, acc =>
    let p := GPrompt.summarizePart (i + 1) total chunk
    match gen p with
    | .error _ => (.error (), [p])
    | .ok s =>
      let r := summarizeChunks gen total rest (i + 1) (if s = [] then acc else acc ++ [s])
      (r.1, p :: r.2)

/-- The method `GeminiAPI.summarize_transcript` (`gemini_api.py` lines 172-213):
one chunk → a single summarization call whose text is returned; several
chunks → one call per chunk, then one merge call over the non-empty chunk
summaries whose text is returned (`None` when every chunk summary was
empty); every exception is caught and becomes `None`.  The returned pair
is (result, prompts issued in order); Python `None` is `none`. -/
def summarize_transcript (gen : GPrompt → Except Unit Str) (transcript_text : Str) :
    Option Str × List GPrompt :=
  let chunks := chunk_content MAX_CHUNK_SIZE transcript_text
  match chunks with
  | [] => (none, [])
  | [c] =>
    match gen (.summarizeSingle c) with
    | .ok s => (some s, [.summarizeSingle c])
    | .error _ => (none, [.summarizeSingle c])
  | c1 :: c2 :: cs =>
    let r := summarizeChunks gen (c1 :: c2 :: cs).length (c1 :: c2 :: cs) 0 []
    match r.1 with
    | .error _ => (none, r.2)
    | .ok summaries =>
      if summaries = [] then (none, r.2)
      else
        match gen (.mergeSummaries summaries) with
        | .ok s => (some s, r.2 ++ [.mergeSummaries summaries])
        | .error _ => (none, r.2 ++ [.mergeSummaries summaries])

/-- Python falsiness of a `summarize_transcript` result (`None` or the
empty string), the check `if not doc_summary:` in `main.py` line 102. -/
def isFalsy : Option Str → Bool
  | none => true
  | some s => s.isEmpty

/-- The prompts the chunk loop is expected to issue, one per chunk. -/
def partPrompts (total : Nat) : Nat → List Str → List GPrompt
  | _, [] => []
  | i, chunk :: rest => .summarizePart (i + 1) total chunk :: partPrompts total (i + 1) rest

/-- Predicate `okChunks gen total i chunks summaries`: starting at 0-based index `i`,
the backend answers every per-chunk summarization prompt successfully with
the corresponding non-empty summary from `summaries`. -/
def okChunks (gen : GPrompt → Except Unit Str) (total : Nat) :
    Nat → List Str → List Str → Prop
  | _, [], summaries => summaries = []
  | i, chunk :: rest, summaries =>
    ∃ s tail, summaries = s :: tail ∧
      gen (.summarizePart (i + 1) total chunk) = .ok s ∧ s ≠ [] ∧
      okChunks gen total (i + 1) rest tail

/-! ### The Drive store and the ingestion pipeline
(`src/drive_api.py`, `src/main.py`).

The Drive state is a list of files; per file we keep the metadata the
pipeline observes: id, name (title), the `meeting_processed` custom
property (`true` or not), and whether the file sits in a `Meet Recordings`
folder (discovery only searches those folders; copies created in a
destination folder do not). -/

structure StoreFile where
  fid : Nat
  name : Str
  processed : Bool
  inMeetFolder : Bool
deriving DecidableEq

/-- The method `DriveAPI.has_been_processed` (`drive_api.py` lines 230-243): the
file's `meeting_processed` property equals `true`. -/
def has_been_processed (f : StoreFile) : Bool := f.processed

/-- The method `DriveAPI.get_new_meet_files` (`drive_api.py` lines 33-121): list the
documents of the `Meet Recordings` folders and keep those for which
`has_been_processed` is false. -/
def get_new_meet_files (store : List StoreFile) : List StoreFile :=
  store.filter (fun f => f.inMeetFolder && !has_been_processed f)

/-- The method `DriveAPI.mark_all_with_title_as_processed` (`drive_api.py` lines
329-358): set the `meeting_processed` property to `true` on every
document whose name equals the title (in any folder). -/
def mark_all_with_title_as_processed (store : List StoreFile) (file_title : Str) :
    List StoreFile :=
  store.map (fun g => if g.name = file_title then { g with processed := true } else g)

/-- The outcomes of the external calls made while processing one file in
`process_meet_files` (`main.py` lines 70-184): file metadata, the exported
text (`[]` models an empty/`falsy` export), the label
`determine_meeting_type` returned, the `summarize_transcript` result, the
success of the docs `batchUpdate`, of `copy_file`, the chat-summary
generation result, and the success of the webhook post. -/
structure FileOracle where
  createdToday : Bool
  mimeIsDoc : Bool
  content : Str
  classifyLabel : Str
  summary : Option Str
  appendOk : Bool
  copyOk : Bool
  chatSummary : Option Str
  chatSendOk : Bool
deriving DecidableEq

/-- The observable external interactions of one file's processing, in
program order. `fetchMeta` is the per-file `files().get` metadata request
(`main.py` lines 72-76), `exportDoc` the `files().export`, `classify` and
`summarize` the two Gemini operations, `appendSummary` the docs
`batchUpdate` writing the embedded summary, `copyFile` the copy into the
destination folder, `markTitle` the `mark_all_with_title_as_processed`
call, `chatGen` a chat/validation summary generation, and `chatSend` the
webhook post. -/
inductive Ev where
  | fetchMeta
  | exportDoc
  | classify
  | summarize
  | appendSummary (ok : Bool)
  | copyFile (ok : Bool)
  | markTitle
  | chatGen
  | chatSend (ok : Bool)
deriving DecidableEq

/-- Whether an event is a chat-notification step (`main.py` lines 144-175). -/
def Ev.isNotif : Ev → Bool
  | .chatGen => true
  | .chatSend _ => true
  | _ => false

/-- The in-run pipeline state: the Drive store, a fresh-id counter for
copies, the per-invocation `processed_titles` set (`main.py` line 201) and
the trace of external interactions so far, each tagged with the id of the
file being processed. -/
structure PipeState where
  store : List StoreFile
  nextId : Nat
  titles : List Str
  trace : List (Nat × Ev)
deriving DecidableEq

/-- The label `"Daily Team Meeting"` (`main.py` line 144). -/
def DAILY_TEAM : Str := "Daily Team Meeting".data

/-- The label `"User Research Meeting"` (`main.py` line 160). -/
def USER_RESEARCH : Str := "User Research Meeting".data

/-- The label `"Product Development Meeting"` (`main.py` line 160). -/
def PRODUCT_DEV : Str := "Product Development Meeting".data

/-- The meeting types that trigger a validation notification
(`main.py` line 160). -/
def validationTypes : List Str := [USER_RESEARCH, PRODUCT_DEV]

/-- The notification tail of one file's processing (`main.py` lines
144-175): a Daily Team Meeting generates a chat summary and, when it is
truthy, posts it to the chat webhook; a User Research / Product
Development meeting does the same against the validation webhook; other
types send nothing.  A falsy generated summary is logged and not sent. -/
def notifEvents (o : FileOracle) (fid : Nat) : List (Nat × Ev) :=
  if o.classifyLabel = DAILY_TEAM then
    (fid, Ev.chatGen) ::
      (if isFalsy o.chatSummary = false then [(fid, Ev.chatSend o.chatSendOk)] else [])
  else if o.classifyLabel ∈ validationTypes then
    (fid, Ev.chatGen) ::
      (if isFalsy o.chatSummary = false then [(fid, Ev.chatSend o.chatSendOk)] else [])
  else []

/-- One iteration of the per-file loop of `process_meet_files`
(`main.py` lines 70-184).  `fm` is `drive_api.folder_mapping`
(meeting type ↦ destination folder id).  Checks in program order:
metadata fetch; skip unless created today; skip when the title is already
in `processed_titles`; claim the title; skip non-documents; export and skip
when empty; classify and summarize; skip (leaving the transcript unmarked)
when the summary is falsy or the docs `batchUpdate` fails; skip when the
meeting type has no mapped folder; copy, and only on copy success create
the copy, mark every file with this title as processed, and then attempt
the chat notification for daily/validation meeting types. -/
def process_one_file (fm : List (Str × Nat)) (o : FileOracle) (f : StoreFile)
    (st : PipeState) : PipeState :=
  let tr0 := st.trace ++ [(f.fid, Ev.fetchMeta)]
  if o.createdToday = false then { st with trace := tr0 }
  else if f.name ∈ st.titles then { st with trace := tr0 }
  else
    let titles1 := f.name :: st.titles
    if o.mimeIsDoc = false then { st with titles := titles1, trace := tr0 }
    else
      let tr1 := tr0 ++ [(f.fid, Ev.exportDoc)]
      if o.content = [] then { st with titles := titles1, trace := tr1 }
      else
        let tr2 := tr1 ++ [(f.fid, Ev.classify), (f.fid, Ev.summarize)]
        if isFalsy o.summary then { st with titles := titles1, trace := tr2 }
        else
          let tr3 := tr2 ++ [(f.fid, Ev.appendSummary o.appendOk)]
          if o.appendOk = false then { st with titles := titles1, trace := tr3 }
          else if (fm.lookup o.classifyLabel).isSome = false then
            { st with titles := titles1, trace := tr3 }
          else
            let tr4 := tr3 ++ [(f.fid, Ev.copyFile o.copyOk)]
            if o.copyOk = false then { st with titles := titles1, trace := tr4 }
            else
              let store1 := st.store ++
                [{ fid := st.nextId, name := f.name, processed := false,
                   inMeetFolder := false }]
              let store2 := mark_all_with_title_as_processed store1 f.name
              let tr5 := tr4 ++ [(f.fid, Ev.markTitle)]
              { store := store2, nextId := st.nextId + 1, titles := titles1,
                trace := tr5 ++ notifEvents o f.fid }

/-- The function `process_meet_files` for one user (`main.py` lines 55-188): discover
the unprocessed Meet documents once, then run the per-file loop over them
(the batching by 10 only groups log lines and is not modelled). -/
def process_meet_files (fm : List (Str × Nat)) (o : Nat → FileOracle)
    (st : PipeState) : PipeState :=
  (get_new_meet_files st.store).foldl (fun s f => process_one_file fm (o f.fid) f s) st

/-- The user loop of `handle_request` (`main.py` lines 190-217):
`get_new_meet_files` ignores its `user_email` argument (the Drive queries
search all drives), so only the number of configured users matters; the
`processed_titles` set and the store are shared across the whole run. -/
def run_users (fm : List (Str × Nat)) (o : Nat → FileOracle) :
    Nat → PipeState → PipeState
  | 0, st => st
  | n + 1, st => run_users fm o n (process_meet_files fm o st)

/-- One full invocation of `handle_request` (`main.py` lines 190-221):
a fresh empty `processed_titles` set and an empty trace, then the user
loop. -/
def handle_request (fm : List (Str × Nat)) (o : Nat → FileOracle)
    (users : Nat) (store : List StoreFile) (nextId : Nat) : PipeState :=
  run_users fm o users { store := store, nextId := nextId, titles := [], trace := [] }

/-! ### Basic facts about `splitLines` and `joinLines` -/

theorem splitLines_ne_nil (cs : Str) : splitLines cs ≠ [] := by
  induction cs with
  | nil => simp [splitLines]
  | cons c rest ih =>
    simp only [splitLines]
    split
    · simp
    · split
      · simp
      · simp

theorem mem_splitLines_no_newline (cs : Str) :
    ∀ l ∈ splitLines cs, '\n' ∉ l := by
  induction cs with
  | nil => intro l hl; simp [splitLines] at hl; simp [hl]
  | cons c rest ih =>
    intro l hl
    simp only [splitLines] at hl
    by_cases hc : c = '\n'
    · rw [if_pos hc, List.mem_cons] at hl
      rcases hl with h | h
      · simp [h]
      · exact ih l h
    · rw [if_neg hc] at hl
      rcases hsplit : splitLines rest with _ | ⟨m, ms⟩
      · exact absurd hsplit (splitLines_ne_nil rest)
      · rw [hsplit, List.mem_cons] at hl
        rcases hl with h | h
        · subst h
          intro hmem
          rw [List.mem_cons] at hmem
          rcases hmem with h | h
          · exact hc h.symm
          · exact ih m (by rw [hsplit]; exact List.mem_cons_self m ms) h
        · exact ih l (by rw [hsplit]; exact List.mem_cons_of_mem m h)

theorem joinLines_cons (x : Str) (xs : List Str) (hxs : xs ≠ []) :
    joinLines (x :: xs) = x ++ '\n' :: joinLines xs := by
  rcases xs with _ | ⟨y, ys⟩
  · exact absurd rfl hxs
  · rfl

theorem joinLines_append (a b : List Str) (ha : a ≠ []) (hb : b ≠ []) :
    joinLines (a ++ b) = joinLines a ++ '\n' :: joinLines b := by
  induction a with
  | nil => exact absurd rfl ha
  | cons x xs ih =>
    rcases xs with _ | ⟨y, ys⟩
    · rw [List.singleton_append, joinLines_cons x b hb]
      rfl
    · have hne : (y :: ys : List Str) ≠ [] := by simp
      have hne2 : (y :: ys) ++ b ≠ [] := by simp
      rw [List.cons_append, joinLines_cons x ((y :: ys) ++ b) hne2,
        joinLines_cons x (y :: ys) hne, ih hne]
      simp

theorem splitLines_append_cons (x : Str) (cs : Str) (l : Str) (ls : List Str)
    (hx : '\n' ∉ x) (hcs : splitLines cs = l :: ls) :
    splitLines (x ++ cs) = (x ++ l) :: ls := by
  induction x with
  | nil => simpa using hcs
  | cons c x' ih =>
    have hc : c ≠ '\n' := fun h => hx (by simp [h])
    have hx' : '\n' ∉ x' := fun h => hx (List.mem_cons_of_mem c h)
    simp only [List.cons_append, splitLines, if_neg hc, List.append_eq, ih hx']

theorem splitLines_no_newline (x : Str) (hx : '\n' ∉ x) :
    splitLines x = [x] := by
  have h := splitLines_append_cons x [] [] [] hx (by simp [splitLines])
  simpa using h

theorem joinLines_splitLines (cs : Str) : joinLines (splitLines cs) = cs := by
  induction cs with
  | nil => simp [splitLines, joinLines]
  | cons c rest ih =>
    by_cases hc : c = '\n'
    · have hne := splitLines_ne_nil rest
      rw [show splitLines (c :: rest) = [] :: splitLines rest by
          simp [splitLines, hc],
        joinLines_cons [] (splitLines rest) hne]
      simp [hc, ih]
    · rcases hsplit : splitLines rest with _ | ⟨l, ls⟩
      · exact absurd hsplit (splitLines_ne_nil rest)
      · have hstep : splitLines (c :: rest) = (c :: l) :: ls := by
          simp only [splitLines, if_neg hc, hsplit]
        rw [hstep]
        rcases ls with _ | ⟨m, ms⟩
        · have : joinLines [l] = rest := by simpa [hsplit] using ih
          simpa [joinLines] using this
        · have hne : (m :: ms : List Str) ≠ [] := by simp
          rw [joinLines_cons (c :: l) (m :: ms) hne]
          rw [hsplit, joinLines_cons l (m :: ms) hne] at ih
          simpa using ih

theorem splitLines_joinLines (group : List Str) (hne : group ≠ [])
    (hnl : ∀ l ∈ group, '\n' ∉ l) :
    splitLines (joinLines group) = group := by
  induction group with
  | nil => exact absurd rfl hne
  | cons x xs ih =>
    rcases xs with _ | ⟨y, ys⟩
    · simpa [joinLines] using splitLines_no_newline x (hnl x (by simp))
    · have hne2 : (y :: ys : List Str) ≠ [] := by simp
      have hih := ih hne2 (fun l hl => hnl l (List.mem_cons_of_mem x hl))
      rw [joinLines_cons x (y :: ys) hne2]
      have hx : '\n' ∉ x := hnl x (by simp)
      have : splitLines ('\n' :: joinLines (y :: ys)) =
          [] :: splitLines (joinLines (y :: ys)) := by
        simp [splitLines]
      calc splitLines (x ++ '\n' :: joinLines (y :: ys))
          = (x ++ []) :: splitLines (joinLines (y :: ys)) := by
            exact splitLines_append_cons x _ [] _ hx this
        _ = x :: (y :: ys) := by rw [hih]; simp

/-! ### Invariants of the chunking loop -/

theorem chunkAux_ne_nil (maxChunkSize : Nat) :
    ∀ (lines cur : List Str) (size : Nat), cur ≠ [] →
      chunkAux maxChunkSize lines cur size ≠ [] := by
  intro lines
  induction lines with
  | nil => intro cur size hcur; simp [chunkAux, hcur]
  | cons line rest ih =>
    intro cur size hcur
    simp only [chunkAux]
    split
    · have := ih [line] (line.length + 1) (by simp)
      simp [hcur, this]
    · exact ih (cur ++ [line]) (size + (line.length + 1)) (by simp)

theorem chunkAux_join (maxChunkSize : Nat) :
    ∀ (lines cur : List Str) (size : Nat), cur ≠ [] →
      joinLines (chunkAux maxChunkSize lines cur size) =
        joinLines (cur ++ lines) := by
  intro lines
  induction lines with
  | nil => intro cur size hcur; simp [chunkAux, hcur, joinLines]
  | cons line rest ih =>
    intro cur size hcur
    simp only [chunkAux, if_neg hcur]
    split
    · have hrec := ih [line] (line.length + 1) (by simp)
      have hne := chunkAux_ne_nil maxChunkSize rest [line] (line.length + 1) (by simp)
      rw [joinLines_append [joinLines cur] _ (by simp) hne]
      rw [joinLines_append cur (line :: rest) hcur (by simp)]
      simp [joinLines, hrec]
    · rw [ih (cur ++ [line]) (size + (line.length + 1)) (by simp)]
      simp

theorem chunkAux_groups (maxChunkSize : Nat) :
    ∀ (lines cur : List Str) (size : Nat), cur ≠ [] →
      (∀ l ∈ cur, '\n' ∉ l) → (∀ l ∈ lines, '\n' ∉ l) →
      ((chunkAux maxChunkSize lines cur size).map splitLines).flatten =
        cur ++ lines := by
  intro lines
  induction lines with
  | nil =>
    intro cur size hcur hcurnl _
    simp [chunkAux, hcur, splitLines_joinLines cur hcur hcurnl]
  | cons line rest ih =>
    intro cur size hcur hcurnl hlnl
    simp only [chunkAux, if_neg hcur]
    split
    · have hrec := ih [line] (line.length + 1) (by simp)
        (by intro m hm; rw [List.mem_singleton] at hm; rw [hm]
            exact hlnl line (by simp))
        (fun m hm => hlnl m (List.mem_cons_of_mem line hm))
      simp only [List.map_append, List.flatten_append, hrec]
      simp [splitLines_joinLines cur hcur hcurnl]
    · rw [ih (cur ++ [line]) (size + (line.length + 1)) (by simp)
        (by intro m hm
            rcases List.mem_append.mp hm with h | h
            · exact hcurnl m h
            · rw [List.mem_singleton] at h; rw [h]
              exact hlnl line (by simp))
        (fun m hm => hlnl m (List.mem_cons_of_mem line hm))]
      simp

theorem joinLines_length (cur : List Str) (hcur : cur ≠ []) :
    (joinLines cur).length + 1 = sizeSum cur := by
  induction cur with
  | nil => exact absurd rfl hcur
  | cons x xs ih =>
    rcases xs with _ | ⟨y, ys⟩
    · simp [joinLines, sizeSum]
    · have hne : (y :: ys : List Str) ≠ [] := by simp
      rw [joinLines_cons x (y :: ys) hne]
      have := ih hne
      simp only [sizeSum, List.map_cons, List.sum_cons] at this ⊢
      simp only [List.length_append, List.length_cons]
      omega

theorem sizeSum_append_one (cur : List Str) (l : Str) :
    sizeSum (cur ++ [l]) = sizeSum cur + (l.length + 1) := by
  simp [sizeSum]

/-- A flushed chunk is either within the limit (when it packs two or more
lines, its joined length is `size - 1 ≤ maxChunkSize - 1`) or it is a
single original line kept whole. -/
theorem flushed_chunk_ok (maxChunkSize : Nat) (allLines : List Str)
    (cur : List Str) (size : Nat) (hne : cur ≠ [])
    (hsize : size = sizeSum cur)
    (hbound : 2 ≤ cur.length → size ≤ maxChunkSize)
    (hcur : ∀ l ∈ cur, l ∈ allLines) :
    (joinLines cur).length ≤ maxChunkSize ∨ joinLines cur ∈ allLines := by
  rcases cur with _ | ⟨x, xs⟩
  · exact absurd rfl hne
  · rcases xs with _ | ⟨y, ys⟩
    · right
      simpa [joinLines] using hcur x (by simp)
    · left
      have hlen : (joinLines (x :: y :: ys)).length + 1 = sizeSum (x :: y :: ys) :=
        joinLines_length (x :: y :: ys) (by simp)
      have hb : size ≤ maxChunkSize := hbound (by simp)
      omega

/-- Every chunk the loop emits is within the limit, or is one of the
original lines (a single over-length line kept whole). -/
theorem chunkAux_sizes (maxChunkSize : Nat) (allLines : List Str) :
    ∀ (lines cur : List Str) (size : Nat),
      size = sizeSum cur →
      (2 ≤ cur.length → size ≤ maxChunkSize) →
      (∀ l ∈ cur, l ∈ allLines) → (∀ l ∈ lines, l ∈ allLines) →
      ∀ c ∈ chunkAux maxChunkSize lines cur size,
        c.length ≤ maxChunkSize ∨ c ∈ allLines := by
  intro lines
  induction lines with
  | nil =>
    intro cur size hsize hbound hcur _ c hc
    rcases hcur' : cur with _ | ⟨x, xs⟩
    · rw [hcur'] at hc; simp [chunkAux] at hc
    · rw [hcur'] at hc
      simp only [chunkAux, if_neg (by simp : (x :: xs : List Str) ≠ [])] at hc
      rw [List.mem_singleton] at hc
      rw [hc, ← hcur']
      exact flushed_chunk_ok maxChunkSize allLines cur size
        (by rw [hcur']; simp) hsize hbound hcur
  | cons line rest ih =>
    intro cur size hsize hbound hcur hlines c hc
    simp only [chunkAux] at hc
    split at hc
    · rcases List.mem_append.mp hc with h | h
      · rcases hcur' : cur with _ | ⟨x, xs⟩
        · rw [hcur'] at h; simp at h
        · rw [hcur', if_neg (by simp : (x :: xs : List Str) ≠ [])] at h
          rw [List.mem_singleton] at h
          rw [h, ← hcur']
          exact flushed_chunk_ok maxChunkSize allLines cur size
            (by rw [hcur']; simp) hsize hbound hcur
      · exact ih [line] (line.length + 1) (by simp [sizeSum])
          (by intro h2; simp at h2)
          (by intro m hm; rw [List.mem_singleton] at hm; rw [hm]
              exact hlines line (by simp))
          (fun m hm => hlines m (List.mem_cons_of_mem line hm)) c h
    · rename_i hover
      exact ih (cur ++ [line]) (size + (line.length + 1))
        (by rw [sizeSum_append_one, hsize])
        (by intro _; omega)
        (by intro m hm
            rcases List.mem_append.mp hm with h | h
            · exact hcur m h
            · rw [List.mem_singleton] at h; rw [h]
              exact hlines line (by simp))
        (fun m hm => hlines m (List.mem_cons_of_mem line hm)) c hc

/-- Rewriting the first iteration of the loop: starting from an empty
pending chunk, the first line always becomes the pending chunk. -/
theorem chunkAux_start (maxChunkSize : Nat) (line : Str) (rest : List Str) :
    chunkAux maxChunkSize (line :: rest) [] 0 =
      chunkAux maxChunkSize rest [line] (line.length + 1) := by
  simp only [chunkAux]
  split <;> simp

/-! ### The chunker contract -/

theorem chunk_content_ne_nil (maxChunkSize : Nat) (content : Str) :
    chunk_content maxChunkSize content ≠ [] := by
  unfold chunk_content
  split
  · simp
  · rcases hsplit : splitLines content with _ | ⟨l, ls⟩
    · exact absurd hsplit (splitLines_ne_nil content)
    · rw [chunkAux_start]
      exact chunkAux_ne_nil maxChunkSize ls [l] (l.length + 1) (by simp)

theorem chunk_content_join (maxChunkSize : Nat) (content : Str) :
    joinLines (chunk_content maxChunkSize content) = content := by
  unfold chunk_content
  split
  · simp [joinLines]
  · rcases hsplit : splitLines content with _ | ⟨l, ls⟩
    · exact absurd hsplit (splitLines_ne_nil content)
    · rw [chunkAux_start, chunkAux_join maxChunkSize ls [l] (l.length + 1) (by simp)]
      have h2 : ([l] ++ ls : List Str) = splitLines content := by rw [hsplit]; rfl
      rw [h2, joinLines_splitLines]

theorem chunk_content_groups (maxChunkSize : Nat) (content : Str) :
    ((chunk_content maxChunkSize content).map splitLines).flatten =
      splitLines content := by
  unfold chunk_content
  split
  · simp
  · rcases hsplit : splitLines content with _ | ⟨l, ls⟩
    · exact absurd hsplit (splitLines_ne_nil content)
    · rw [chunkAux_start, chunkAux_groups maxChunkSize ls [l] (l.length + 1) (by simp)
        (by intro m hm; rw [List.mem_singleton] at hm; rw [hm]
            exact mem_splitLines_no_newline content l (by rw [hsplit]; simp))
        (by intro m hm
            exact mem_splitLines_no_newline content m (by rw [hsplit]; simp [hm]))]
      rfl

theorem chunk_content_sizes (maxChunkSize : Nat) (content : Str) :
    ∀ c ∈ chunk_content maxChunkSize content,
      c.length ≤ maxChunkSize ∨ ('\n' ∉ c ∧ c ∈ splitLines content) := by
  intro c hc
  unfold chunk_content at hc
  split at hc
  · rw [List.mem_singleton] at hc
    subst hc
    left
    omega
  · rcases hsplit : splitLines content with _ | ⟨l, ls⟩
    · exact absurd hsplit (splitLines_ne_nil content)
    · rw [hsplit, chunkAux_start] at hc
      have := chunkAux_sizes maxChunkSize (splitLines content) ls [l] (l.length + 1)
        (by simp [sizeSum])
        (by intro h2; simp at h2)
        (by intro m hm; rw [List.mem_singleton] at hm; rw [hm]
            rw [hsplit]; simp)
        (by intro m hm; rw [hsplit]; simp [hm]) c hc
      rcases this with h | h
      · left; exact h
      · right
        refine ⟨mem_splitLines_no_newline content c h, ?_⟩
        rw [hsplit] at h
        exact h

theorem chunk_content_single (maxChunkSize : Nat) (content : Str)
    (h : content.length ≤ maxChunkSize) :
    chunk_content maxChunkSize content = [content] := by
  unfold chunk_content
  rw [if_pos h]

/-! ## The claims -/

/-- C4: for every text and every positive maximum chunk size, the chunker
returns a non-empty ordered sequence of chunks (even for the empty
string), and joining the returned chunks in order with single newline
separators reproduces the original text exactly. -/
theorem C4_chunker_join_reconstructs (content : Str) (maxChunkSize : Nat)
    (hpos : 0 < maxChunkSize) :
    chunk_content maxChunkSize content ≠ [] ∧
      joinLines (chunk_content maxChunkSize content) = content :=
  ⟨chunk_content_ne_nil maxChunkSize content, chunk_content_join maxChunkSize content⟩

theorem C4_chunker_join_reconstructs_witness :
    0 < 1 ∧ (chunk_content 1 [] ≠ [] ∧ joinLines (chunk_content 1 []) = []) :=
  ⟨by decide, C4_chunker_join_reconstructs [] 1 (by decide)⟩

/-- C5: every chunk has length at most the maximum chunk size, except a
chunk that is a single (newline-free) line of the original text longer
than the limit, kept whole as its own oversized chunk; splitting occurs
only at line boundaries (the chunks split back into exactly the original
line sequence); and text whose length is at or under the limit yields
exactly one chunk equal to the input. -/
theorem C5_chunk_size_bound (content : Str) (maxChunkSize : Nat) :
    (∀ c ∈ chunk_content maxChunkSize content,
        c.length ≤ maxChunkSize ∨ ('\n' ∉ c ∧ c ∈ splitLines content)) ∧
    ((chunk_content maxChunkSize content).map splitLines).flatten =
        splitLines content ∧
    (content.length ≤ maxChunkSize →
        chunk_content maxChunkSize content = [content]) :=
  ⟨chunk_content_sizes maxChunkSize content,
   chunk_content_groups maxChunkSize content,
   chunk_content_single maxChunkSize content⟩

theorem C5_chunk_size_bound_witness :
    (∀ c ∈ chunk_content 3 "ab\ncd".data,
        c.length ≤ 3 ∨ ('\n' ∉ c ∧ c ∈ splitLines "ab\ncd".data)) ∧
    ((chunk_content 3 "ab\ncd".data).map splitLines).flatten =
        splitLines "ab\ncd".data ∧
    ("ab\ncd".data.length ≤ 3 → chunk_content 3 "ab\ncd".data = ["ab\ncd".data]) :=
  C5_chunk_size_bound "ab\ncd".data 3

/-- C10: a prompt longer than `MAX_CHUNK_SIZE` (30000) is silently
truncated by `_generate_with_retry`: the prompt actually sent is the first
line-boundary chunk, the chunks jointly carry the whole prompt (so the
dropped tail is exactly the remainder), and whenever such a prompt
contains a newline (as every summarization/chat/validation prompt does,
their instruction templates being multi-line) there are at least two
chunks and the sent prompt is strictly shorter than the original. -/
theorem C10_long_prompt_truncated (prompt : Str)
    (hlong : MAX_CHUNK_SIZE < prompt.length) :
    sent_prompt prompt = (chunk_content MAX_CHUNK_SIZE prompt).headI ∧
    chunk_content MAX_CHUNK_SIZE prompt =
      sent_prompt prompt :: (chunk_content MAX_CHUNK_SIZE prompt).tail ∧
    joinLines (chunk_content MAX_CHUNK_SIZE prompt) = prompt ∧
    ('\n' ∈ prompt →
      2 ≤ (chunk_content MAX_CHUNK_SIZE prompt).length ∧
      (sent_prompt prompt).length < prompt.length) := by
  have hjoin := chunk_content_join MAX_CHUNK_SIZE prompt
  have hne := chunk_content_ne_nil MAX_CHUNK_SIZE prompt
  have hhead : sent_prompt prompt = (chunk_content MAX_CHUNK_SIZE prompt).headI := by
    by_cases hlen : (chunk_content MAX_CHUNK_SIZE prompt).length > 1
    · simp only [sent_prompt]
      rw [if_pos hlen]
    · simp only [sent_prompt]
      rw [if_neg hlen]
      rcases hc : chunk_content MAX_CHUNK_SIZE prompt with _ | ⟨c, cs⟩
      · exact absurd hc hne
      · rcases cs with _ | ⟨d, ds⟩
        · rw [hc] at hjoin
          simp only [joinLines] at hjoin
          simp [hjoin]
        · rw [hc] at hlen
          simp at hlen
  have hcons : chunk_content MAX_CHUNK_SIZE prompt =
      sent_prompt prompt :: (chunk_content MAX_CHUNK_SIZE prompt).tail := by
    rcases hc : chunk_content MAX_CHUNK_SIZE prompt with _ | ⟨c, cs⟩
    · exact absurd hc hne
    · rw [hhead, hc]
      simp
  refine ⟨hhead, hcons, hjoin, ?_⟩
  intro hnl
  have h2 : 2 ≤ (chunk_content MAX_CHUNK_SIZE prompt).length := by
    rcases hc : chunk_content MAX_CHUNK_SIZE prompt with _ | ⟨c, cs⟩
    · exact absurd hc hne
    · rcases cs with _ | ⟨d, ds⟩
      · exfalso
        rw [hc] at hjoin
        simp only [joinLines] at hjoin
        have := chunk_content_sizes MAX_CHUNK_SIZE prompt c (by rw [hc]; simp)
        rcases this with h | h
        · rw [hjoin] at h; omega
        · exact h.1 (by rw [hjoin]; exact hnl)
      · simp
  refine ⟨h2, ?_⟩
  rcases hc : chunk_content MAX_CHUNK_SIZE prompt with _ | ⟨c, cs⟩
  · exact absurd hc hne
  · rcases cs with _ | ⟨d, ds⟩
    · rw [hc] at h2; simp at h2
    · have hpc : sent_prompt prompt = c := by rw [hhead, hc]; rfl
      rw [hc, joinLines_cons c (d :: ds) (by simp)] at hjoin
      rw [hpc, ← hjoin]
      simp

theorem C10_long_prompt_truncated_witness :
    MAX_CHUNK_SIZE < (List.replicate 30001 'a' ++ '\n' :: ['b']).length ∧
    (sent_prompt (List.replicate 30001 'a' ++ '\n' :: ['b']) =
      (chunk_content MAX_CHUNK_SIZE
        (List.replicate 30001 'a' ++ '\n' :: ['b'])).headI ∧
     chunk_content MAX_CHUNK_SIZE (List.replicate 30001 'a' ++ '\n' :: ['b']) =
      sent_prompt (List.replicate 30001 'a' ++ '\n' :: ['b']) ::
        (chunk_content MAX_CHUNK_SIZE
          (List.replicate 30001 'a' ++ '\n' :: ['b'])).tail ∧
     joinLines (chunk_content MAX_CHUNK_SIZE
        (List.replicate 30001 'a' ++ '\n' :: ['b'])) =
      List.replicate 30001 'a' ++ '\n' :: ['b'] ∧
     ('\n' ∈ (List.replicate 30001 'a' ++ '\n' :: ['b']) →
      2 ≤ (chunk_content MAX_CHUNK_SIZE
            (List.replicate 30001 'a' ++ '\n' :: ['b'])).length ∧
      (sent_prompt (List.replicate 30001 'a' ++ '\n' :: ['b'])).length <
        (List.replicate 30001 'a' ++ '\n' :: ['b']).length)) :=
  ⟨by
    rw [show (List.replicate 30001 'a' ++ '\n' :: ['b']).length = 30003 by
      rw [List.length_append, List.length_replicate]; rfl]
    decide,
   C10_long_prompt_truncated (List.replicate 30001 'a' ++ '\n' :: ['b'])
     (by
      rw [show (List.replicate 30001 'a' ++ '\n' :: ['b']).length = 30003 by
        rw [List.length_append, List.length_replicate]; rfl]
      decide)⟩

/-- C9: `_check_rate_limit` admits a call by incrementing the counter; a
call finding the counter at the ceiling (55) with less than 60 seconds
elapsed since the window start blocks for the remaining window time
(`60 - elapsed` seconds) and resets the counter and window start before
admission (new counter 1, new window start the post-sleep clock); once 60
or more seconds have elapsed the counter and window start are reset and
the call is admitted immediately without blocking. -/
theorem C9_rate_limit_window (count : Nat) (last now : ℚ) :
    (count ≥ 55 → now - last < 60 →
      check_rate_limit count last now =
        (1, now + (60 - (now - last)), 60 - (now - last))) ∧
    (now - last ≥ 60 → check_rate_limit count last now = (1, now, 0)) ∧
    (count < 55 → now - last < 60 →
      check_rate_limit count last now = (count + 1, last, 0)) := by
  refine ⟨?_, ?_, ?_⟩
  · intro h55 hlt
    have h1 : ¬(now - last ≥ 60) := not_le.mpr hlt
    have h2 : (60 : ℚ) - (now - last) > 0 := by linarith
    simp only [check_rate_limit, if_neg h1, if_pos h55, if_pos h2, Nat.zero_add]
  · intro hge
    have h3 : ¬((0 : Nat) ≥ 55) := by omega
    simp only [check_rate_limit, if_pos hge, if_neg h3, Nat.zero_add]
  · intro hlt55 hlt
    have h1 : ¬(now - last ≥ 60) := not_le.mpr hlt
    have h2 : ¬(count ≥ 55) := not_le.mpr hlt55
    simp only [check_rate_limit, if_neg h1, if_neg h2]

theorem C9_rate_limit_window_witness :
    55 ≥ 55 ∧ (30 : ℚ) - 0 < 60 ∧
    check_rate_limit 55 0 30 = (1, 30 + (60 - ((30 : ℚ) - 0)), 60 - ((30 : ℚ) - 0)) :=
  ⟨le_refl 55, by norm_num,
   (C9_rate_limit_window 55 0 30).1 (le_refl 55) (by norm_num)⟩

/-! ### Helper lemmas for the Gemini operations -/

theorem other_mem_valid_categories : ("Other".data : Str) ∈ valid_categories := by
  simp [valid_categories]

theorem summarizeChunks_spec (gen : GPrompt → Except Unit Str) (total : Nat) :
    ∀ (chunks : List Str) (i : Nat) (acc summaries : List Str),
      okChunks gen total i chunks summaries →
      summarizeChunks gen total chunks i acc =
        (.ok (acc ++ summaries), partPrompts total i chunks) := by
  intro chunks
  induction chunks with
  | nil =>
    intro i acc summaries h
    rw [show okChunks gen total i [] summaries = (summaries = []) from rfl] at h
    simp [summarizeChunks, partPrompts, h]
  | cons c rest ih =>
    intro i acc summaries h
    obtain ⟨s, tail, hsum, hgen, hne, hrest⟩ := h
    simp only [summarizeChunks, hgen, if_neg hne]
    rw [ih (i + 1) (acc ++ [s]) tail hrest]
    simp [partPrompts, hsum]

/-- A two-line text whose first line is over-long always chunks into
exactly its two lines. -/
theorem chunk_content_two (maxChunkSize : Nat) (a b : Str)
    (ha : '\n' ∉ a) (hb : '\n' ∉ b) (hlen : maxChunkSize < a.length) :
    chunk_content maxChunkSize (a ++ '\n' :: b) = [a, b] := by
  have hsplit : splitLines (a ++ '\n' :: b) = [a, b] := by
    have h1 : splitLines ('\n' :: b) = [] :: splitLines b := by simp [splitLines]
    rw [splitLines_no_newline b hb] at h1
    simpa using splitLines_append_cons a ('\n' :: b) [] [b] ha h1
  unfold chunk_content
  rw [if_neg (by simp only [List.length_append, List.length_cons]; omega)]
  rw [hsplit, chunkAux_start]
  have hc1 : a.length + 1 + (b.length + 1) > maxChunkSize := by omega
  simp only [chunkAux, if_pos hc1]
  simp [joinLines]

/-- C7: `determine_meeting_type` is total over the closed label set: for
every transcript and optional document name it returns one of the seven
labels; any backend output outside the set maps to `Other`; and any
failure of the backend call (including retry exhaustion, which surfaces as
a raised exception) yields `Other` instead of propagating. -/
theorem C7_meeting_type_closed (gen : GPrompt → Except Unit Str)
    (transcript_text : Str) (document_name : Option Str) :
    determine_meeting_type gen transcript_text document_name ∈ valid_categories ∧
    (∀ r, gen (.classifyP document_name
          ((chunk_content MAX_CHUNK_SIZE transcript_text).headI)) = .ok r →
        r ∉ valid_categories →
        determine_meeting_type gen transcript_text document_name = "Other".data) ∧
    (gen (.classifyP document_name
          ((chunk_content MAX_CHUNK_SIZE transcript_text).headI)) = .error () →
        determine_meeting_type gen transcript_text document_name = "Other".data) := by
  rcases hg : gen (.classifyP document_name
      ((chunk_content MAX_CHUNK_SIZE transcript_text).headI)) with e | r
  · refine ⟨?_, ?_, ?_⟩
    · simp only [determine_meeting_type, hg]
      decide
    · intro r hr; exact absurd hr (by simp)
    · intro _; simp [determine_meeting_type, hg]
  · by_cases hr : r ∈ valid_categories
    · refine ⟨?_, ?_, ?_⟩
      · simp [determine_meeting_type, hg, hr]
      · intro r' hr' hnot
        injection hr' with h
        exact absurd (h ▸ hr) hnot
      · intro h; exact absurd h (by simp)
    · refine ⟨?_, ?_, ?_⟩
      · simp only [determine_meeting_type, hg]
        rw [if_neg hr]
        decide
      · intro _ _ _; simp [determine_meeting_type, hg, hr]
      · intro h; exact absurd h (by simp)

theorem C7_meeting_type_closed_witness :
    determine_meeting_type (fun _ => .ok "Banana".data) [] none ∈ valid_categories ∧
    determine_meeting_type (fun _ => .ok "Banana".data) [] none = "Other".data :=
  ⟨(C7_meeting_type_closed (fun _ => .ok "Banana".data) [] none).1,
   (C7_meeting_type_closed (fun _ => .ok "Banana".data) [] none).2.1
     "Banana".data rfl (by decide)⟩

/-- C6: `summarize_transcript` on a one-chunk text makes a single
summarization call and returns its text; on a multi-chunk text, when every
per-chunk call succeeds with a non-empty summary, it makes exactly one
call per chunk followed by one merge call over all the chunk summaries and
returns the merge result; if the merge yields the empty string, the result
is the falsy value `some []` (what `main.py` checks with
`if not doc_summary`), not a raised exception; and a raised backend
exception anywhere becomes the failure value `none` — `summarize_transcript`
is a total function, so no exception reaches the pipeline. -/
theorem C6_summarize_call_structure (gen : GPrompt → Except Unit Str)
    (transcript_text : Str) :
    (∀ c, chunk_content MAX_CHUNK_SIZE transcript_text = [c] →
      (summarize_transcript gen transcript_text).2 = [.summarizeSingle c] ∧
      (∀ s, gen (.summarizeSingle c) = .ok s →
        (summarize_transcript gen transcript_text).1 = some s) ∧
      (gen (.summarizeSingle c) = .error () →
        (summarize_transcript gen transcript_text).1 = none)) ∧
    (∀ c1 c2 cs summaries,
      chunk_content MAX_CHUNK_SIZE transcript_text = c1 :: c2 :: cs →
      okChunks gen (c1 :: c2 :: cs).length 0 (c1 :: c2 :: cs) summaries →
      (summarize_transcript gen transcript_text).2 =
        partPrompts (c1 :: c2 :: cs).length 0 (c1 :: c2 :: cs) ++
          [.mergeSummaries summaries] ∧
      (∀ m, gen (.mergeSummaries summaries) = .ok m →
        (summarize_transcript gen transcript_text).1 = some m) ∧
      (gen (.mergeSummaries summaries) = .error () →
        (summarize_transcript gen transcript_text).1 = none) ∧
      (gen (.mergeSummaries summaries) = .ok [] →
        (summarize_transcript gen transcript_text).1 = some [] ∧
        isFalsy (summarize_transcript gen transcript_text).1 = true)) := by
  constructor
  · intro c hc
    rcases hg : gen (.summarizeSingle c) with e | s
    · refine ⟨?_, ?_, ?_⟩
      · simp [summarize_transcript, hc, hg]
      · intro s hs; exact absurd hs (by simp)
      · intro _; simp [summarize_transcript, hc, hg]
    · refine ⟨?_, ?_, ?_⟩
      · simp [summarize_transcript, hc, hg]
      · intro s' hs'
        injection hs' with h
        simp [summarize_transcript, hc, hg, h]
      · intro h; exact absurd h (by simp)
  · intro c1 c2 cs summaries hc hok
    have hsne : summaries ≠ [] := by
      obtain ⟨s, tail, h1, _, _, _⟩ := hok
      simp [h1]
    have hloop := summarizeChunks_spec gen (c1 :: c2 :: cs).length
      (c1 :: c2 :: cs) 0 [] summaries hok
    simp only [List.length_cons, List.nil_append] at hloop
    rcases hm : gen (.mergeSummaries summaries) with e | m
    · refine ⟨?_, ?_, ?_, ?_⟩
      · simp [summarize_transcript, hc, hloop, hsne, hm]
      · intro m hm'; exact absurd hm' (by simp)
      · intro _; simp [summarize_transcript, hc, hloop, hsne, hm]
      · intro h; exact absurd h (by simp)
    · refine ⟨?_, ?_, ?_, ?_⟩
      · simp [summarize_transcript, hc, hloop, hsne, hm]
      · intro m' hm'
        injection hm' with h
        simp [summarize_transcript, hc, hloop, hsne, hm, h]
      · intro h; exact absurd h (by simp)
      · intro h
        injection h with h
        constructor
        · simp [summarize_transcript, hc, hloop, hsne, hm, h]
        · simp [summarize_transcript, hc, hloop, hsne, hm, h, isFalsy]

theorem C6_summarize_call_structure_witness :
    chunk_content MAX_CHUNK_SIZE (List.replicate 30001 'a' ++ '\n' :: ['b']) =
      [List.replicate 30001 'a', ['b']] ∧
    okChunks
      (fun p => match p with
        | .summarizePart 1 2 _ => .ok "alpha".data
        | .summarizePart 2 2 _ => .ok "beta".data
        | .mergeSummaries _ => .ok "merged".data
        | _ => .error ())
      2 0 [List.replicate 30001 'a', ['b']] ["alpha".data, "beta".data] ∧
    (summarize_transcript
      (fun p => match p with
        | .summarizePart 1 2 _ => .ok "alpha".data
        | .summarizePart 2 2 _ => .ok "beta".data
        | .mergeSummaries _ => .ok "merged".data
        | _ => .error ())
      (List.replicate 30001 'a' ++ '\n' :: ['b'])).1 = some "merged".data ∧
    (summarize_transcript
      (fun p => match p with
        | .summarizePart 1 2 _ => .ok "alpha".data
        | .summarizePart 2 2 _ => .ok "beta".data
        | .mergeSummaries _ => .ok "merged".data
        | _ => .error ())
      (List.replicate 30001 'a' ++ '\n' :: ['b'])).2 =
      partPrompts 2 0 [List.replicate 30001 'a', ['b']] ++
        [.mergeSummaries ["alpha".data, "beta".data]] := by
  have hchunks : chunk_content MAX_CHUNK_SIZE
      (List.replicate 30001 'a' ++ '\n' :: ['b']) =
      [List.replicate 30001 'a', ['b']] := by
    apply chunk_content_two
    · intro h
      rw [List.mem_replicate] at h
      exact absurd h.2 (by decide)
    · decide
    · rw [List.length_replicate]; decide
  have hok : okChunks
      (fun p => match p with
        | .summarizePart 1 2 _ => .ok "alpha".data
        | .summarizePart 2 2 _ => .ok "beta".data
        | .mergeSummaries _ => .ok "merged".data
        | _ => .error ())
      2 0 [List.replicate 30001 'a', ['b']] ["alpha".data, "beta".data] := by
    refine ⟨"alpha".data, ["beta".data], rfl, rfl, by decide, ?_⟩
    exact ⟨"beta".data, [], rfl, rfl, by decide, rfl⟩
  have h := (C6_summarize_call_structure
    (fun p => match p with
      | .summarizePart 1 2 _ => .ok "alpha".data
      | .summarizePart 2 2 _ => .ok "beta".data
      | .mergeSummaries _ => .ok "merged".data
      | _ => .error ())
    (List.replicate 30001 'a' ++ '\n' :: ['b'])).2
    (List.replicate 30001 'a') ['b'] [] ["alpha".data, "beta".data] hchunks hok
  exact ⟨hchunks, hok, h.2.1 "merged".data rfl, h.1⟩

theorem backoffWait_bounds (n : Nat) : 4 ≤ backoffWait n ∧ backoffWait n ≤ 10 := by
  unfold backoffWait
  exact ⟨le_max_left _ _, max_le (by norm_num) (min_le_right _ _)⟩

/-- C8: every wrapped text-generation call makes at most 3 attempts; a
retry only ever follows a failed attempt (HTTP error, HTTP 429, or a
no-candidates response — encoded as a raised failure, never an empty
string); every failed non-final attempt is followed by an exponential
backoff wait whose value lies in `[4, 10]` seconds; an HTTP 429 response
additionally forces a fixed 5-second sleep (before the backoff when a
retry follows); and only after all 3 attempts fail is the failure
surfaced to the calling operation. -/
theorem C8_retry_bounded_attempts (outcomes : Nat → GenOutcome) :
    (generate_with_retry outcomes).2.1 ≤ 3 ∧
    (1 < (generate_with_retry outcomes).2.1 → (outcomes 1).isFail = true) ∧
    (2 < (generate_with_retry outcomes).2.1 → (outcomes 2).isFail = true) ∧
    ((outcomes 1).isFail = true →
      2 ≤ (generate_with_retry outcomes).2.1 ∧
      backoffWait 1 ∈ (generate_with_retry outcomes).2.2) ∧
    (2 ≤ (generate_with_retry outcomes).2.1 → (outcomes 2).isFail = true →
      (generate_with_retry outcomes).2.1 = 3 ∧
      backoffWait 2 ∈ (generate_with_retry outcomes).2.2) ∧
    (∀ n, 4 ≤ backoffWait n ∧ backoffWait n ≤ 10) ∧
    (outcomes 1 = .http429 → (generate_with_retry outcomes).2.2.headI = 5) ∧
    (2 ≤ (generate_with_retry outcomes).2.1 → outcomes 2 = .http429 →
      (5 : Nat) ∈ (generate_with_retry outcomes).2.2) ∧
    ((generate_with_retry outcomes).2.1 = 3 → outcomes 3 = .http429 →
      (5 : Nat) ∈ (generate_with_retry outcomes).2.2) ∧
    ((outcomes 1).isFail = true → (outcomes 2).isFail = true →
      (outcomes 3).isFail = true →
      (generate_with_retry outcomes).1 = .error () ∧
      (generate_with_retry outcomes).2.1 = 3) ∧
    genAttempt .noCandidates = (.error (), []) := by
  cases h1 : outcomes 1 <;> cases h2 : outcomes 2 <;> cases h3 : outcomes 3 <;>
    simp_all [generate_with_retry, retryLoop, genAttempt, GenOutcome.isFail,
      backoffWait_bounds]

theorem C8_retry_bounded_attempts_witness :
    ((fun i => if i = 1 then GenOutcome.http429
               else .success "ok".data) 1).isFail = true ∧
    2 ≤ (generate_with_retry (fun i => if i = 1 then GenOutcome.http429
               else .success "ok".data)).2.1 ∧
    backoffWait 1 ∈ (generate_with_retry (fun i => if i = 1 then GenOutcome.http429
               else .success "ok".data)).2.2 ∧
    (generate_with_retry (fun i => if i = 1 then GenOutcome.http429
               else .success "ok".data)).2.2.headI = 5 := by
  have h := C8_retry_bounded_attempts
    (fun i => if i = 1 then GenOutcome.http429 else .success "ok".data)
  have h4 := h.2.2.2.1 (by decide)
  exact ⟨by decide, h4.1, h4.2, h.2.2.2.2.2.2.1 (by decide)⟩

/-! ### Helper lemmas for the pipeline -/

theorem notifEvents_notif (o : FileOracle) (fid : Nat) :
    ∀ p ∈ notifEvents o fid, p.1 = fid ∧ (Prod.snd p).isNotif = true := by
  unfold notifEvents
  split_ifs <;> intro p hp <;> simp_all [Ev.isNotif] <;>
    rcases hp with h | h <;> simp_all [Ev.isNotif]

theorem markTitle_not_mem_notifEvents (o : FileOracle) (fid : Nat) :
    Ev.markTitle ∉ (notifEvents o fid).map Prod.snd := by
  intro hmem
  rw [List.mem_map] at hmem
  obtain ⟨p, hp, hsnd⟩ := hmem
  have := (notifEvents_notif o fid p hp).2
  rw [hsnd] at this
  simp [Ev.isNotif] at this

/-- The processed mark appears in a file's trace exactly when every stage
before it succeeded: fresh file, unclaimed title, a document with
non-empty content, a truthy summary, a successful `batchUpdate`, a mapped
meeting type and a successful copy. -/
theorem markTitle_mem_iff (fm : List (Str × Nat)) (o : FileOracle)
    (f : StoreFile) (store : List StoreFile) (nid : Nat) (titles : List Str) :
    Ev.markTitle ∈ ((process_one_file fm o f
        (PipeState.mk store nid titles [])).trace.map Prod.snd) ↔
      (o.createdToday = true ∧ f.name ∉ titles ∧ o.mimeIsDoc = true ∧
       o.content ≠ [] ∧ isFalsy o.summary = false ∧ o.appendOk = true ∧
       (fm.lookup o.classifyLabel).isSome = true ∧ o.copyOk = true) := by
  unfold process_one_file
  split_ifs <;>
    simp_all [markTitle_not_mem_notifEvents, Option.isSome_iff_ne_none,
      -List.lookup_isSome_iff, -List.lookup_eq_none_iff]

/-- The trace appended by one file's processing, as an explicit decision
tree over the oracle outcomes. -/
theorem process_one_file_trace (fm : List (Str × Nat)) (o : FileOracle)
    (f : StoreFile) (st : PipeState) :
    (process_one_file fm o f st).trace = st.trace ++
      ((f.fid, Ev.fetchMeta) ::
        (if o.createdToday = false then [] else
         if f.name ∈ st.titles then [] else
         if o.mimeIsDoc = false then [] else
         (f.fid, Ev.exportDoc) ::
         (if o.content = [] then [] else
          (f.fid, Ev.classify) :: (f.fid, Ev.summarize) ::
          (if isFalsy o.summary then [] else
           (f.fid, Ev.appendSummary o.appendOk) ::
           (if o.appendOk = false then [] else
            if (fm.lookup o.classifyLabel).isSome = false then [] else
            (f.fid, Ev.copyFile o.copyOk) ::
            (if o.copyOk = false then [] else
             (f.fid, Ev.markTitle) :: notifEvents o f.fid)))))) := by
  unfold process_one_file
  split_ifs <;> simp_all

/-- C1: within one pipeline run, a transcript's processed mark
(`mark_all_with_title_as_processed`) is applied only after both the
embedded-summary `batchUpdate` and the copy to the destination folder
succeeded; if either fails the transcript is never marked in that run;
when the mark happens the trace is exactly the successful pre-mark stages
followed by the mark and then only chat-notification events, so the mark
precedes any notification attempt; any notification event implies the
mark is present; and the presence of the mark does not depend on the
chat-notification oracle fields, so a notification failure never leaves
the transcript unmarked. -/
theorem C1_mark_only_after_durable_work (fm : List (Str × Nat)) (o : FileOracle)
    (f : StoreFile) (store : List StoreFile) (nid : Nat) (titles : List Str) :
    (Ev.markTitle ∈ ((process_one_file fm o f
        (PipeState.mk store nid titles [])).trace.map Prod.snd) →
      o.appendOk = true ∧ o.copyOk = true) ∧
    ((o.appendOk = false ∨ o.copyOk = false) →
      Ev.markTitle ∉ ((process_one_file fm o f
        (PipeState.mk store nid titles [])).trace.map Prod.snd)) ∧
    (Ev.markTitle ∈ ((process_one_file fm o f
        (PipeState.mk store nid titles [])).trace.map Prod.snd) →
      ∃ tail, ((process_one_file fm o f
          (PipeState.mk store nid titles [])).trace.map Prod.snd) =
        [Ev.fetchMeta, Ev.exportDoc, Ev.classify, Ev.summarize,
         Ev.appendSummary true, Ev.copyFile true, Ev.markTitle] ++ tail ∧
        ∀ e ∈ tail, e.isNotif = true) ∧
    (∀ e ∈ ((process_one_file fm o f
        (PipeState.mk store nid titles [])).trace.map Prod.snd),
      e.isNotif = true →
      Ev.markTitle ∈ ((process_one_file fm o f
        (PipeState.mk store nid titles [])).trace.map Prod.snd)) ∧
    (∀ o' : FileOracle, o'.createdToday = o.createdToday →
      o'.mimeIsDoc = o.mimeIsDoc → o'.content = o.content →
      o'.classifyLabel = o.classifyLabel → o'.summary = o.summary →
      o'.appendOk = o.appendOk → o'.copyOk = o.copyOk →
      (Ev.markTitle ∈ ((process_one_file fm o' f
          (PipeState.mk store nid titles [])).trace.map Prod.snd) ↔
       Ev.markTitle ∈ ((process_one_file fm o f
          (PipeState.mk store nid titles [])).trace.map Prod.snd))) := by
  refine ⟨?_, ?_, ?_, ?_, ?_⟩
  · intro hmem
    rw [markTitle_mem_iff] at hmem
    exact ⟨hmem.2.2.2.2.2.1, hmem.2.2.2.2.2.2.2⟩
  · intro hor hmem
    rw [markTitle_mem_iff] at hmem
    rcases hor with h | h
    · exact absurd hmem.2.2.2.2.2.1 (by simp [h])
    · exact absurd hmem.2.2.2.2.2.2.2 (by simp [h])
  · intro hmem
    rw [markTitle_mem_iff] at hmem
    obtain ⟨h1, h2, h3, h4, h5, h6, h7, h8⟩ := hmem
    refine ⟨(notifEvents o f.fid).map Prod.snd, ?_, ?_⟩
    · rw [process_one_file_trace]
      rw [if_neg (by simp [h1]), if_neg h2, if_neg (by simp [h3]),
        if_neg h4, if_neg (by simp [h5]), if_neg (by simp [h6]),
        if_neg (by simp [h7]), if_neg (by simp [h8]), h6, h8]
      simp
    · intro e he
      rw [List.mem_map] at he
      obtain ⟨p, hp, hsnd⟩ := he
      rw [← hsnd]
      exact (notifEvents_notif o f.fid p hp).2
  · rw [process_one_file_trace]
    split_ifs <;> intro e he hnotif <;> cases e <;> simp_all [Ev.isNotif]
  · intro o' h1 h2 h3 h4 h5 h6 h7
    rw [markTitle_mem_iff, markTitle_mem_iff, h1, h2, h3, h4, h5, h6, h7]

theorem C1_mark_only_after_durable_work_witness :
    Ev.markTitle ∈ ((process_one_file [("Client Meeting".data, 5)]
        (FileOracle.mk true true "t".data "Client Meeting".data
          (some "s".data) true true (some "c".data) true)
        (StoreFile.mk 1 "T".data false true)
        (PipeState.mk [] 0 [] [])).trace.map Prod.snd) ∧
    ((FileOracle.mk true true "t".data "Client Meeting".data
        (some "s".data) true true (some "c".data) true).appendOk = true ∧
     (FileOracle.mk true true "t".data "Client Meeting".data
        (some "s".data) true true (some "c".data) true).copyOk = true) :=
  ⟨by decide,
   (C1_mark_only_after_durable_work [("Client Meeting".data, 5)]
      (FileOracle.mk true true "t".data "Client Meeting".data
        (some "s".data) true true (some "c".data) true)
      (StoreFile.mk 1 "T".data false true) [] 0 []).1 (by decide)⟩

/-- Marking by title only sets the processed property, and only on files
whose name matches; every file of the marked store comes from a file of
the original store with the same id, name and folder, and marking never
clears the processed property. -/
theorem mem_mark_all (store : List StoreFile) (title : Str) :
    ∀ g ∈ mark_all_with_title_as_processed store title,
      ∃ g₀ ∈ store, g₀.fid = g.fid ∧ g₀.name = g.name ∧
        g₀.inMeetFolder = g.inMeetFolder ∧
        (g₀.processed = true → g.processed = true) := by
  intro g hg
  rw [mark_all_with_title_as_processed, List.mem_map] at hg
  obtain ⟨g₀, hg₀, heq⟩ := hg
  by_cases h : g₀.name = title
  · rw [if_pos h] at heq
    subst heq
    exact ⟨g₀, hg₀, rfl, rfl, rfl, fun _ => rfl⟩
  · rw [if_neg h] at heq
    subst heq
    exact ⟨g₀, hg₀, rfl, rfl, rfl, fun hp => hp⟩

/-- Marking by title marks every file carrying the title. -/
theorem mark_all_marks_title (store : List StoreFile) (title : Str) :
    ∀ g ∈ mark_all_with_title_as_processed store title,
      g.name = title → g.processed = true := by
  intro g hg hname
  rw [mark_all_with_title_as_processed, List.mem_map] at hg
  obtain ⟨g₀, hg₀, heq⟩ := hg
  by_cases h : g₀.name = title
  · rw [if_pos h] at heq
    subst heq
    rfl
  · rw [if_neg h] at heq
    subst heq
    exact absurd hname h

/-- Processing one file only ever extends the store with copies outside
the Meet folders and marks titles: every Meet-folder file of the new
store descends from a Meet-folder file of the old store. -/
theorem process_one_file_store_evolves (fm : List (Str × Nat)) (o : FileOracle)
    (f : StoreFile) (st : PipeState) :
    ∀ g ∈ (process_one_file fm o f st).store, g.inMeetFolder = true →
      ∃ g₀ ∈ st.store, g₀.fid = g.fid ∧ g₀.name = g.name ∧
        g₀.inMeetFolder = true ∧ (g₀.processed = true → g.processed = true) := by
  unfold process_one_file
  split_ifs <;> intro g hg hmeet <;>
    try exact ⟨g, hg, rfl, rfl, hmeet, fun hp => hp⟩
  obtain ⟨g₀, hg₀, hfid, hname, hmeet', hproc⟩ := mem_mark_all _ f.name g hg
  rw [List.mem_append] at hg₀
  rcases hg₀ with h | h
  · exact ⟨g₀, h, hfid, hname, by rw [hmeet', hmeet], hproc⟩
  · rw [List.mem_singleton] at h
    subst h
    rw [hmeet] at hmeet'
    simp at hmeet'

/-- The per-file fold preserves the Meet-folder descent relation. -/
theorem foldl_store_evolves (fm : List (Str × Nat)) (o : Nat → FileOracle) :
    ∀ (files : List StoreFile) (st : PipeState),
      ∀ g ∈ (files.foldl (fun s f => process_one_file fm (o f.fid) f s) st).store,
        g.inMeetFolder = true →
        ∃ g₀ ∈ st.store, g₀.fid = g.fid ∧ g₀.name = g.name ∧
          g₀.inMeetFolder = true ∧ (g₀.processed = true → g.processed = true) := by
  intro files
  induction files with
  | nil => intro st g hg hmeet; exact ⟨g, hg, rfl, rfl, hmeet, fun hp => hp⟩
  | cons f fs ih =>
    intro st g hg hmeet
    obtain ⟨g₁, hg₁, hfid1, hname1, hmeet1, hproc1⟩ :=
      ih (process_one_file fm (o f.fid) f st) g (by simpa using hg) hmeet
    obtain ⟨g₀, hg₀, hfid0, hname0, hmeet0, hproc0⟩ :=
      process_one_file_store_evolves fm (o f.fid) f st g₁ hg₁ hmeet1
    exact ⟨g₀, hg₀, by rw [hfid0, hfid1], by rw [hname0, hname1], hmeet0,
      fun hp => hproc1 (hproc0 hp)⟩

theorem process_meet_files_store_evolves (fm : List (Str × Nat))
    (o : Nat → FileOracle) (st : PipeState) :
    ∀ g ∈ (process_meet_files fm o st).store, g.inMeetFolder = true →
      ∃ g₀ ∈ st.store, g₀.fid = g.fid ∧ g₀.name = g.name ∧
        g₀.inMeetFolder = true ∧ (g₀.processed = true → g.processed = true) := by
  unfold process_meet_files
  exact foldl_store_evolves fm o (get_new_meet_files st.store) st

theorem run_users_store_evolves (fm : List (Str × Nat)) (o : Nat → FileOracle) :
    ∀ (n : Nat) (st : PipeState),
      ∀ g ∈ (run_users fm o n st).store, g.inMeetFolder = true →
        ∃ g₀ ∈ st.store, g₀.fid = g.fid ∧ g₀.name = g.name ∧
          g₀.inMeetFolder = true ∧ (g₀.processed = true → g.processed = true) := by
  intro n
  induction n with
  | zero => intro st g hg hmeet; exact ⟨g, hg, rfl, rfl, hmeet, fun hp => hp⟩
  | succ n ih =>
    intro st g hg hmeet
    obtain ⟨g₁, hg₁, hfid1, hname1, hmeet1, hproc1⟩ :=
      ih (process_meet_files fm o st) g (by simpa [run_users] using hg) hmeet
    obtain ⟨g₀, hg₀, hfid0, hname0, hmeet0, hproc0⟩ :=
      process_meet_files_store_evolves fm o st g₁ hg₁ hmeet1
    exact ⟨g₀, hg₀, by rw [hfid0, hfid1], by rw [hname0, hname1], hmeet0,
      fun hp => hproc1 (hproc0 hp)⟩

/-- Discovery membership: exactly the unprocessed Meet-folder files. -/
theorem mem_get_new_meet_files (store : List StoreFile) (f : StoreFile) :
    f ∈ get_new_meet_files store ↔
      f ∈ store ∧ f.inMeetFolder = true ∧ has_been_processed f = false := by
  simp [get_new_meet_files, List.mem_filter, has_been_processed,
    Bool.and_eq_true, and_assoc]

/-- With no discovered files, one user's run is a no-op. -/
theorem process_meet_files_no_files (fm : List (Str × Nat))
    (o : Nat → FileOracle) (st : PipeState)
    (h : get_new_meet_files st.store = []) :
    process_meet_files fm o st = st := by
  unfold process_meet_files
  rw [h]
  rfl

theorem run_users_no_files (fm : List (Str × Nat)) (o : Nat → FileOracle) :
    ∀ (n : Nat) (st : PipeState), get_new_meet_files st.store = [] →
      run_users fm o n st = st := by
  intro n
  induction n with
  | zero => intro st _; rfl
  | succ n ih =>
    intro st h
    show run_users fm o n (process_meet_files fm o st) = st
    rw [process_meet_files_no_files fm o st h]
    exact ih st h

/-- C2: discovery excludes every file whose processed property equals
`'true'`; and when a first invocation completed fully — every discovered
transcript was (by-title) marked processed in the resulting store — a
second invocation of the pipeline on that unmodified store discovers
nothing and performs no external interaction at all (an empty trace: no
metadata fetch, classification, summarization, annotation, filing,
marking or notification event). -/
theorem C2_second_invocation_no_work (fm : List (Str × Nat))
    (o : Nat → FileOracle) (users : Nat) (store : List StoreFile) (nid : Nat)
    (fm' : List (Str × Nat)) (o' : Nat → FileOracle) (users' : Nat) (nid' : Nat)
    (h : ∀ f ∈ get_new_meet_files store,
      ∀ g ∈ (handle_request fm o users store nid).store,
        g.name = f.name → g.processed = true) :
    (∀ (st : List StoreFile) (f : StoreFile),
      f ∈ get_new_meet_files st → has_been_processed f = false) ∧
    get_new_meet_files (handle_request fm o users store nid).store = [] ∧
    (handle_request fm' o' users'
      (handle_request fm o users store nid).store nid').trace = [] := by
  have hA : ∀ (st : List StoreFile) (f : StoreFile),
      f ∈ get_new_meet_files st → has_been_processed f = false := by
    intro st f hf
    exact ((mem_get_new_meet_files st f).mp hf).2.2
  have hB : get_new_meet_files (handle_request fm o users store nid).store = [] := by
    rw [List.eq_nil_iff_forall_not_mem]
    intro g hg
    rw [mem_get_new_meet_files] at hg
    obtain ⟨hgmem, hgmeet, hgproc⟩ := hg
    obtain ⟨g₀, hg₀, _, hname, hmeet0, hproc0⟩ :=
      run_users_store_evolves fm o users (PipeState.mk store nid [] [])
        g hgmem hgmeet
    rcases hp0 : g₀.processed with _ | _
    · have hdisc : g₀ ∈ get_new_meet_files store := by
        rw [mem_get_new_meet_files]
        exact ⟨hg₀, hmeet0, by simp [has_been_processed, hp0]⟩
      have := h g₀ hdisc g hgmem hname.symm
      rw [has_been_processed] at hgproc
      rw [this] at hgproc
      exact absurd hgproc (by simp)
    · have := hproc0 hp0
      rw [has_been_processed] at hgproc
      rw [this] at hgproc
      exact absurd hgproc (by simp)
  refine ⟨hA, hB, ?_⟩
  show (run_users fm' o' users'
    (PipeState.mk (handle_request fm o users store nid).store nid' [] [])).trace = []
  have hstep := run_users_no_files fm' o' users'
    (PipeState.mk (handle_request fm o users store nid).store nid' [] [])
    (by exact hB)
  rw [hstep]

theorem C2_second_invocation_no_work_witness :
    get_new_meet_files [StoreFile.mk 1 "T".data false true] =
      [StoreFile.mk 1 "T".data false true] ∧
    (∀ f ∈ get_new_meet_files [StoreFile.mk 1 "T".data false true],
      ∀ g ∈ (handle_request [("Client Meeting".data, 5)]
          (fun _ => FileOracle.mk true true "t".data "Client Meeting".data
            (some "s".data) true true none false)
          1 [StoreFile.mk 1 "T".data false true] 10).store,
        g.name = f.name → g.processed = true) ∧
    get_new_meet_files (handle_request [("Client Meeting".data, 5)]
      (fun _ => FileOracle.mk true true "t".data "Client Meeting".data
        (some "s".data) true true none false)
      1 [StoreFile.mk 1 "T".data false true] 10).store = [] ∧
    (handle_request [("Client Meeting".data, 5)]
      (fun _ => FileOracle.mk true true "t".data "Client Meeting".data
        (some "s".data) true true none false) 1
      (handle_request [("Client Meeting".data, 5)]
        (fun _ => FileOracle.mk true true "t".data "Client Meeting".data
          (some "s".data) true true none false)
        1 [StoreFile.mk 1 "T".data false true] 10).store 0).trace = [] := by
  have h : ∀ f ∈ get_new_meet_files [StoreFile.mk 1 "T".data false true],
      ∀ g ∈ (handle_request [("Client Meeting".data, 5)]
          (fun _ => FileOracle.mk true true "t".data "Client Meeting".data
            (some "s".data) true true none false)
          1 [StoreFile.mk 1 "T".data false true] 10).store,
        g.name = f.name → g.processed = true := by decide
  have hmain := C2_second_invocation_no_work [("Client Meeting".data, 5)]
    (fun _ => FileOracle.mk true true "t".data "Client Meeting".data
      (some "s".data) true true none false)
    1 [StoreFile.mk 1 "T".data false true] 10 [("Client Meeting".data, 5)]
    (fun _ => FileOracle.mk true true "t".data "Client Meeting".data
      (some "s".data) true true none false)
    1 0 h
  exact ⟨by decide, h, hmain.2.1, hmain.2.2⟩

/-- The `processed_titles` set after one file: the title is claimed unless
the file was skipped for freshness or as a duplicate title. -/
theorem process_one_file_titles (fm : List (Str × Nat)) (o : FileOracle)
    (f : StoreFile) (st : PipeState) :
    (process_one_file fm o f st).titles =
      if o.createdToday = false then st.titles
      else if f.name ∈ st.titles then st.titles
      else f.name :: st.titles := by
  unfold process_one_file
  split_ifs <;> rfl

/-- The store after one file: only a fully successful run (through the
copy) changes it, by appending the destination-folder copy and then
marking every file with the title as processed. -/
theorem process_one_file_store (fm : List (Str × Nat)) (o : FileOracle)
    (f : StoreFile) (st : PipeState) :
    (process_one_file fm o f st).store =
      if o.createdToday = true ∧ f.name ∉ st.titles ∧ o.mimeIsDoc = true ∧
         o.content ≠ [] ∧ isFalsy o.summary = false ∧ o.appendOk = true ∧
         (fm.lookup o.classifyLabel).isSome = true ∧ o.copyOk = true
      then mark_all_with_title_as_processed
        (st.store ++ [StoreFile.mk st.nextId f.name false false]) f.name
      else st.store := by
  unfold process_one_file
  split_ifs <;> simp_all

/-- C3 (amended): two discovered transcripts sharing a title in one run:
the first is classified, summarized, annotated, filed and marked; the
second is skipped at the dedup step — after its per-file metadata fetch
(a Drive `files().get` request), but before any classification,
summarization, annotation, filing, marking or notification call — and
the by-title marking marks every document carrying the title, so both
end up marked processed. -/
theorem C3_amended_dedup_by_title (fm : List (Str × Nat)) (o : Nat → FileOracle)
    (f1 f2 : StoreFile) (nid : Nat)
    (hfid : f1.fid ≠ f2.fid) (hname : f2.name = f1.name)
    (hm1 : f1.inMeetFolder = true) (hp1 : f1.processed = false)
    (hm2 : f2.inMeetFolder = true) (hp2 : f2.processed = false)
    (hc1 : (o f1.fid).createdToday = true) (hd1 : (o f1.fid).mimeIsDoc = true)
    (hct1 : (o f1.fid).content ≠ []) (hs1 : isFalsy (o f1.fid).summary = false)
    (ha1 : (o f1.fid).appendOk = true)
    (hl1 : (fm.lookup (o f1.fid).classifyLabel).isSome = true)
    (hcp1 : (o f1.fid).copyOk = true)
    (hc2 : (o f2.fid).createdToday = true) :
    (((process_meet_files fm o (PipeState.mk [f1, f2] nid [] [])).trace.filter
        (fun p => p.1 == f2.fid)).map Prod.snd = [Ev.fetchMeta]) ∧
    (f1.fid, Ev.classify) ∈
      (process_meet_files fm o (PipeState.mk [f1, f2] nid [] [])).trace ∧
    (f1.fid, Ev.summarize) ∈
      (process_meet_files fm o (PipeState.mk [f1, f2] nid [] [])).trace ∧
    (f1.fid, Ev.appendSummary true) ∈
      (process_meet_files fm o (PipeState.mk [f1, f2] nid [] [])).trace ∧
    (f1.fid, Ev.copyFile true) ∈
      (process_meet_files fm o (PipeState.mk [f1, f2] nid [] [])).trace ∧
    (f1.fid, Ev.markTitle) ∈
      (process_meet_files fm o (PipeState.mk [f1, f2] nid [] [])).trace ∧
    (∀ g ∈ (process_meet_files fm o (PipeState.mk [f1, f2] nid [] [])).store,
      g.name = f1.name → g.processed = true) := by
  have hfold : process_meet_files fm o (PipeState.mk [f1, f2] nid [] []) =
      process_one_file fm (o f2.fid) f2
        (process_one_file fm (o f1.fid) f1 (PipeState.mk [f1, f2] nid [] [])) := by
    unfold process_meet_files
    have hdisc : get_new_meet_files (PipeState.mk [f1, f2] nid [] []).store =
        [f1, f2] := by
      simp [get_new_meet_files, has_been_processed, hm1, hp1, hm2, hp2]
    rw [hdisc]
    rfl
  have htr1 : (process_one_file fm (o f1.fid) f1
      (PipeState.mk [f1, f2] nid [] [])).trace =
      [(f1.fid, Ev.fetchMeta), (f1.fid, Ev.exportDoc), (f1.fid, Ev.classify),
       (f1.fid, Ev.summarize), (f1.fid, Ev.appendSummary true),
       (f1.fid, Ev.copyFile true), (f1.fid, Ev.markTitle)] ++
        notifEvents (o f1.fid) f1.fid := by
    rw [process_one_file_trace]
    rw [if_neg (by simp [hc1]), if_neg (by simp), if_neg (by simp [hd1]),
      if_neg hct1, if_neg (by simp [hs1]), if_neg (by simp [ha1]),
      if_neg (by simp [hl1]), if_neg (by simp [hcp1]), ha1, hcp1]
    simp
  have htitles1 : (process_one_file fm (o f1.fid) f1
      (PipeState.mk [f1, f2] nid [] [])).titles = [f1.name] := by
    rw [process_one_file_titles]
    rw [if_neg (by simp [hc1]), if_neg (by simp)]
  have hstore1 : (process_one_file fm (o f1.fid) f1
      (PipeState.mk [f1, f2] nid [] [])).store =
      mark_all_with_title_as_processed
        ([f1, f2] ++ [StoreFile.mk nid f1.name false false]) f1.name := by
    rw [process_one_file_store,
      if_pos ⟨hc1, by simp, hd1, hct1, hs1, ha1, hl1, hcp1⟩]
  have htr2 : (process_meet_files fm o (PipeState.mk [f1, f2] nid [] [])).trace =
      (process_one_file fm (o f1.fid) f1
        (PipeState.mk [f1, f2] nid [] [])).trace ++ [(f2.fid, Ev.fetchMeta)] := by
    rw [hfold, process_one_file_trace]
    rw [if_neg (by simp [hc2]), if_pos (by rw [htitles1]; simp [hname])]
  have hstore2 : (process_meet_files fm o (PipeState.mk [f1, f2] nid [] [])).store =
      (process_one_file fm (o f1.fid) f1 (PipeState.mk [f1, f2] nid [] [])).store := by
    rw [hfold, process_one_file_store, if_neg]
    intro hcond
    apply hcond.2.1
    rw [htitles1]
    simp [hname]
  have htags1 : ∀ p ∈ (process_one_file fm (o f1.fid) f1
      (PipeState.mk [f1, f2] nid [] [])).trace, p.1 = f1.fid := by
    rw [htr1]
    intro p hp
    rw [List.mem_append] at hp
    rcases hp with h | h
    · simp at h
      rcases h with h | h | h | h | h | h | h <;> rw [h]
    · exact (notifEvents_notif (o f1.fid) f1.fid p h).1
  refine ⟨?_, ?_, ?_, ?_, ?_, ?_, ?_⟩
  · rw [htr2, List.filter_append]
    have hnil : (process_one_file fm (o f1.fid) f1
        (PipeState.mk [f1, f2] nid [] [])).trace.filter
          (fun p => p.1 == f2.fid) = [] := by
      rw [List.filter_eq_nil_iff]
      intro p hp
      rw [htags1 p hp]
      simp [hfid]
    rw [hnil]
    simp
  · rw [htr2, htr1]; simp
  · rw [htr2, htr1]; simp
  · rw [htr2, htr1]; simp
  · rw [htr2, htr1]; simp
  · rw [htr2, htr1]; simp
  · intro g hg hn
    rw [hstore2, hstore1] at hg
    exact mark_all_marks_title _ _ g hg hn

/-- C3 counterexample: with two discovered same-title transcripts, the
second one is not skipped before any remote call — its per-file metadata
fetch (`files().get`, a remote Drive request, `main.py` lines 72-76) is
issued before the dedup check, so its interaction list is `[fetchMeta]`,
not `[]`. -/
theorem C3_counterexample_metadata_fetch_before_dedup :
    ((process_meet_files [("Client Meeting".data, 5)]
        (fun _ => FileOracle.mk true true "t".data "Client Meeting".data
          (some "s".data) true true none false)
        (PipeState.mk [StoreFile.mk 1 "T".data false true,
                       StoreFile.mk 2 "T".data false true] 10 [] [])).trace.filter
        (fun p => p.1 == 2)).map Prod.snd = [Ev.fetchMeta] ∧
    ((process_meet_files [("Client Meeting".data, 5)]
        (fun _ => FileOracle.mk true true "t".data "Client Meeting".data
          (some "s".data) true true none false)
        (PipeState.mk [StoreFile.mk 1 "T".data false true,
                       StoreFile.mk 2 "T".data false true] 10 [] [])).trace.filter
        (fun p => p.1 == 2)).map Prod.snd ≠ [] := by
  constructor
  · decide
  · decide

theorem C3_amended_dedup_by_title_witness :
    (((process_meet_files [("Client Meeting".data, 5)]
        (fun _ => FileOracle.mk true true "t".data "Client Meeting".data
          (some "s".data) true true none false)
        (PipeState.mk [StoreFile.mk 1 "T".data false true,
                       StoreFile.mk 2 "T".data false true] 10 [] [])).trace.filter
        (fun p => p.1 == (StoreFile.mk 2 "T".data false true).fid)).map
        Prod.snd = [Ev.fetchMeta]) :=
  (C3_amended_dedup_by_title [("Client Meeting".data, 5)]
    (fun _ => FileOracle.mk true true "t".data "Client Meeting".data
      (some "s".data) true true none false)
    (StoreFile.mk 1 "T".data false true) (StoreFile.mk 2 "T".data false true) 10
    (by decide) rfl rfl rfl rfl rfl rfl rfl (by decide) (by decide) rfl
    (by decide) rfl rfl).1

end MeetingIntern
